import Mathlib

/-!
# Verification of the FizzBuzz rule engine

Shallow embedding of `fizzbuzz.py`: a `RuleSet` holds an ordered list of
`Rule`s (condition/action/last), a list of default actions, and optional
before/after hooks.  Side-effecting Python procedures (actions, defaults,
hooks) are embedded as state transformers over an abstract state type `σ`;
conditions are pure boolean predicates, exactly as in the source.  The
FizzBuzz generator instantiates the engine at state `List FBVal`, the
accumulating output list.
-/

set_option autoImplicit false
set_option maxRecDepth 40000

universe u v

variable {α : Type u} {σ : Type v}

/-- `Rule(condition, action, last=False)` from the source: a condition
predicate, a side-effecting action (embedded as a state transformer that
also receives the processed value), and the `last` flag. -/
structure Rule (α : Type u) (σ : Type v) where
  condition : α → Bool
  action : α → σ → σ
  last : Bool

/-- `Rule.matches(x)`: evaluates the stored condition on the value. -/
def Rule.matches (r : Rule α σ) (x : α) : Bool :=
  r.condition x

/-- `RuleSet.__init__`: ordered rules, ordered default actions, optional
`before_processing` hook (receives the value) and `after_processing` hook
(no arguments, so just a state transformer). -/
structure RuleSet (α : Type u) (σ : Type v) where
  rules : List (Rule α σ)
  defaults : List (α → σ → σ)
  before_processing : Option (α → σ → σ)
  after_processing : Option (σ → σ)

/-- `RuleSet.add(condition, action, last)`: `self._rules.append(Rule(condition, action, last))`. -/
def RuleSet.add (R : RuleSet α σ) (condition : α → Bool) (action : α → σ → σ)
    (last : Bool) : RuleSet α σ :=
  RuleSet.mk (R.rules ++ [Rule.mk condition action last]) R.defaults
    R.before_processing R.after_processing

/-- `RuleSet.add_default(action)`: `self._defaults.append(action)`. -/
def RuleSet.add_default (R : RuleSet α σ) (action : α → σ → σ) : RuleSet α σ :=
  RuleSet.mk R.rules (R.defaults ++ [action]) R.before_processing R.after_processing

/-- The rule loop of `RuleSet.process`: iterate the rules in order; on a
match run the action, clear `match_not_found`, and break if the rule is
`last`.  Returns the final state together with the `match_not_found` flag. -/
def processRules : List (Rule α σ) → α → σ → Bool → σ × Bool
  | [], _, s, mnf => (s, mnf)
  | r :: rs, x, s, mnf =>
    if r.matches x then
      let s2 := r.action x s
      if r.last then (s2, false)
      else processRules rs x s2 false
    else processRules rs x s mnf

/-- `RuleSet.process(x)`: optional before hook, the rule loop starting with
`match_not_found = True`, the default actions when no rule matched, and the
optional after hook. -/
def RuleSet.process (R : RuleSet α σ) (x : α) (s : σ) : σ :=
  let s1 := match R.before_processing with
    | some f => f x s
    | none => s
  let p := processRules R.rules x s1 true
  let s2 := if p.2 then R.defaults.foldl (fun t a => a x t) p.1 else p.1
  match R.after_processing with
  | some g => g s2
  | none => s2

/-- `RuleSet.process_many(xs)`: `for x in xs: self.process(x)`. -/
def RuleSet.process_many (R : RuleSet α σ) (xs : List α) (s : σ) : σ :=
  xs.foldl (fun t x => R.process x t) s

/-- A value produced by the FizzBuzz generator: a Python int or string. -/
inductive FBVal where
  | num : Int → FBVal
  | str : String → FBVal
deriving DecidableEq, Repr

/-- The rule set built inside `get_fizz_buzz_values`: the three FizzBuzz
rules (multiple of 15 flagged `last`, then 3, then 5) and the default that
records the original value.  Actions append to the output list, embedding
`output.append(...)`. -/
def fizz_buzz_rules : RuleSet Int (List FBVal) :=
  let R0 : RuleSet Int (List FBVal) := RuleSet.mk [] [] none none
  let R1 := R0.add (fun x => x % 15 == 0) (fun _ out => out ++ [FBVal.str "FizzBuzz"]) true
  let R2 := R1.add (fun x => x % 3 == 0) (fun _ out => out ++ [FBVal.str "Fizz"]) false
  let R3 := R2.add (fun x => x % 5 == 0) (fun _ out => out ++ [FBVal.str "Buzz"]) false
  R3.add_default (fun x out => out ++ [FBVal.num x])

/-- `get_fizz_buzz_values()`: process 1..100 (`range(1, 101)`) through the
FizzBuzz rule set, starting from the empty output list. -/
def get_fizz_buzz_values : List FBVal :=
  fizz_buzz_rules.process_many ((List.range' 1 100).map Int.ofNat) []

/-- The per-value FizzBuzz specification from the spec's testable
properties: "FizzBuzz" for multiples of 15, else "Fizz" for multiples of 3,
else "Buzz" for multiples of 5, else the integer itself. -/
def fizz_buzz_spec_value (n : Int) : FBVal :=
  if n % 15 == 0 then FBVal.str "FizzBuzz"
  else if n % 3 == 0 then FBVal.str "Fizz"
  else if n % 5 == 0 then FBVal.str "Buzz"
  else FBVal.num n

/-- Spec-side description of the rule loop: the list of rules whose actions
fire for `x` — every matching rule in insertion order, up to and including
the first matching rule whose `last` flag is set. -/
def fired_rules : List (Rule α σ) → α → List (Rule α σ)
  | [], _ => []
  | r :: rs, x =>
    if r.matches x then
      if r.last then [r] else r :: fired_rules rs x
    else fired_rules rs x

/-- Demonstration rules for concrete witnesses: a `last`-flagged rule
followed by a rule that also matches the input 15. -/
def demo_rule_last : Rule Int (List Int) :=
  Rule.mk (fun x => x % 15 == 0) (fun x out => out ++ [x]) true

/-- A subsequent rule that would also match 15. -/
def demo_rule_next : Rule Int (List Int) :=
  Rule.mk (fun x => x % 5 == 0) (fun x out => out ++ [x + 100]) false

/-- A rule set holding the two demonstration rules. -/
def demo_rule_set : RuleSet Int (List Int) :=
  RuleSet.mk [demo_rule_last, demo_rule_next] [] none none

/-- A rule set with no rules, no defaults, and no hooks. -/
def empty_rule_set : RuleSet Int (List Int) :=
  RuleSet.mk [] [] none none

/-- The registration operations a `RuleSet` exposes; `process` and
`process_many` act only on the external state, never on the rule set. -/
inductive RuleSetOp (α : Type u) (σ : Type v) where
  | add (condition : α → Bool) (action : α → σ → σ) (last : Bool)
  | add_default (action : α → σ → σ)
  | process (x : α)
  | process_many (xs : List α)

/-- Apply one operation to a rule set; `process`/`process_many` read the
rules but never write them, so the rule set is unchanged. -/
def apply_op (R : RuleSet α σ) : RuleSetOp α σ → RuleSet α σ
  | .add c a l => R.add c a l
  | .add_default a => R.add_default a
  | .process _ => R
  | .process_many _ => R

/-- The rules a list of operations appends, in order. -/
def ops_new_rules : List (RuleSetOp α σ) → List (Rule α σ)
  | [] => []
  | .add c a l :: ops => Rule.mk c a l :: ops_new_rules ops
  | .add_default _ :: ops => ops_new_rules ops
  | .process _ :: ops => ops_new_rules ops
  | .process_many _ :: ops => ops_new_rules ops

/-- The default actions a list of operations appends, in order. -/
def ops_new_defaults : List (RuleSetOp α σ) → List (α → σ → σ)
  | [] => []
  | .add _ _ _ :: ops => ops_new_defaults ops
  | .add_default a :: ops => a :: ops_new_defaults ops
  | .process _ :: ops => ops_new_defaults ops
  | .process_many _ :: ops => ops_new_defaults ops

/-- Apply an optional before hook, as `process` does: run it on the value
when present, keep the state unchanged when absent. -/
def opt_hook_before (h : Option (α → σ → σ)) (x : α) (s : σ) : σ :=
  match h with
  | some f => f x s
  | none => s

/-- Apply an optional after hook, as `process` does. -/
def opt_hook_after (h : Option (σ → σ)) (s : σ) : σ :=
  match h with
  | some g => g s
  | none => s

/-- Run a list of default actions in registration order, each with the
processed value. -/
def run_defaults (ds : List (α → σ → σ)) (x : α) (s : σ) : σ :=
  ds.foldl (fun t a => a x t) s

theorem processRules_eq_fired (x : α) (rules : List (Rule α σ)) :
    ∀ (s : σ) (mnf : Bool),
      processRules rules x s mnf
        = ((fired_rules rules x).foldl (fun t r => r.action x t) s,
           mnf && (fired_rules rules x).isEmpty) := by
  induction rules with
  | nil =>
    intro s mnf
    simp [processRules, fired_rules]
  | cons r rs ih =>
    intro s mnf
    by_cases h : r.matches x = true
    · by_cases hl : r.last = true
      · simp [processRules, fired_rules, h, hl]
      · simp only [Bool.not_eq_true] at hl
        simp [processRules, fired_rules, h, hl, ih]
    · simp only [Bool.not_eq_true] at h
      simp [processRules, fired_rules, h, ih]

theorem fired_rules_isEmpty_eq_all (x : α) (rules : List (Rule α σ)) :
    (fired_rules rules x).isEmpty = rules.all (fun r => !(r.matches x)) := by
  induction rules with
  | nil => simp [fired_rules]
  | cons r rs ih =>
    by_cases h : r.matches x = true
    · by_cases hl : r.last = true
      · simp [fired_rules, h, hl]
      · simp only [Bool.not_eq_true] at hl
        simp [fired_rules, h, hl]
    · simp only [Bool.not_eq_true] at h
      simp [fired_rules, h, ih]

theorem fired_rules_last_split (x : α) (pre : List (Rule α σ)) :
    ∀ (R1 : Rule α σ) (post : List (Rule α σ)),
      R1.matches x = true → R1.last = true →
      (∀ r ∈ pre, r.matches x = true → r.last = false) →
      fired_rules (pre ++ R1 :: post) x
        = pre.filter (fun r => r.matches x) ++ [R1] := by
  induction pre with
  | nil =>
    intro R1 post hm hl _
    simp [fired_rules, hm, hl]
  | cons p ps ih =>
    intro R1 post hm hl hpre
    have hps : ∀ r ∈ ps, r.matches x = true → r.last = false := by
      intro r hr
      exact hpre r (List.mem_cons_of_mem p hr)
    by_cases hp : p.matches x = true
    · have hpl : p.last = false := hpre p (List.mem_cons_self p ps) hp
      simp [fired_rules, hp, hpl, List.filter_cons, ih R1 post hm hl hps]
    · simp only [Bool.not_eq_true] at hp
      simp [fired_rules, hp, List.filter_cons, ih R1 post hm hl hps]

theorem fired_rules_no_last (x : α) (rules : List (Rule α σ)) :
    (∀ r ∈ rules, r.matches x = true → r.last = false) →
    fired_rules rules x = rules.filter (fun r => r.matches x) := by
  induction rules with
  | nil => intro _; simp [fired_rules]
  | cons r rs ih =>
    intro h
    have hrs : ∀ q ∈ rs, q.matches x = true → q.last = false := by
      intro q hq
      exact h q (List.mem_cons_of_mem r hq)
    by_cases hr : r.matches x = true
    · have hl : r.last = false := h r (List.mem_cons_self r rs) hr
      simp [fired_rules, hr, hl, List.filter_cons, ih hrs]
    · simp only [Bool.not_eq_true] at hr
      simp [fired_rules, hr, List.filter_cons, ih hrs]

theorem foldl_apply_op_rules (ops : List (RuleSetOp α σ)) :
    ∀ R : RuleSet α σ,
      (ops.foldl apply_op R).rules = R.rules ++ ops_new_rules ops := by
  induction ops with
  | nil => intro R; simp [ops_new_rules]
  | cons op ops ih =>
    intro R
    cases op with
    | add c a l =>
      simp [List.foldl_cons, apply_op, ops_new_rules, ih, RuleSet.add,
        List.append_assoc]
    | add_default a =>
      simp [List.foldl_cons, apply_op, ops_new_rules, ih, RuleSet.add_default]
    | process y => simp [List.foldl_cons, apply_op, ops_new_rules, ih]
    | process_many ys => simp [List.foldl_cons, apply_op, ops_new_rules, ih]

theorem foldl_apply_op_defaults (ops : List (RuleSetOp α σ)) :
    ∀ R : RuleSet α σ,
      (ops.foldl apply_op R).defaults = R.defaults ++ ops_new_defaults ops := by
  induction ops with
  | nil => intro R; simp [ops_new_defaults]
  | cons op ops ih =>
    intro R
    cases op with
    | add c a l =>
      simp [List.foldl_cons, apply_op, ops_new_defaults, ih, RuleSet.add]
    | add_default a =>
      simp [List.foldl_cons, apply_op, ops_new_defaults, ih, RuleSet.add_default,
        List.append_assoc]
    | process y => simp [List.foldl_cons, apply_op, ops_new_defaults, ih]
    | process_many ys => simp [List.foldl_cons, apply_op, ops_new_defaults, ih]

/-- C1: the list returned by `get_fizz_buzz_values` has exactly 100
elements, and for every N in [1,100] its (N-1)th element is "FizzBuzz" if N
is a multiple of 15, else "Fizz" if N is a multiple of 3, else "Buzz" if N
is a multiple of 5, else the integer N itself, so the output order matches
the input order 1..100. -/
theorem get_fizz_buzz_values_correct :
    get_fizz_buzz_values.length = 100 ∧
    ∀ n ∈ List.range' 1 100,
      get_fizz_buzz_values[n - 1]? = some (fizz_buzz_spec_value (Int.ofNat n)) := by
  decide

/-- Witness for C1 at N = 15: the 14th element is "FizzBuzz". -/
theorem get_fizz_buzz_values_correct_witness :
    (15 ∈ List.range' 1 100) ∧
    get_fizz_buzz_values[15 - 1]? = some (FBVal.str "FizzBuzz") :=
  ⟨by decide, (get_fizz_buzz_values_correct.2 15 (by decide)).trans (by decide)⟩

/-- C2: the rule loop of `process` tests the rules in insertion order and
fires the action of every matching rule, in rule order, up to and including
the first matching rule whose `last` flag is true; after a matching
`last`-flagged rule no further rules are tested or fired, and with no
matching `last` rule every matching rule fires. -/
theorem process_rules_in_order_until_last (R : RuleSet α σ) (x : α) (s : σ) :
    (processRules R.rules x s true).1
      = (fired_rules R.rules x).foldl (fun t r => r.action x t) s
    ∧ (∀ (pre : List (Rule α σ)) (R1 : Rule α σ) (post : List (Rule α σ)),
        R.rules = pre ++ R1 :: post →
        R1.matches x = true → R1.last = true →
        (∀ r ∈ pre, r.matches x = true → r.last = false) →
        fired_rules R.rules x = pre.filter (fun r => r.matches x) ++ [R1])
    ∧ ((∀ r ∈ R.rules, r.matches x = true → r.last = false) →
        fired_rules R.rules x = R.rules.filter (fun r => r.matches x)) := by
  refine ⟨?_, ?_, ?_⟩
  · rw [processRules_eq_fired]
  · intro pre R1 post hsplit hm hl hpre
    rw [hsplit]
    exact fired_rules_last_split x pre R1 post hm hl hpre
  · intro h
    exact fired_rules_no_last x R.rules h

/-- Witness for C2: a `last`-flagged rule followed by a rule that also
matches 15; only the first rule's action fires, producing `[15]` and not
the second action's `115`. -/
theorem process_rules_in_order_until_last_witness :
    demo_rule_last.last = true ∧ demo_rule_next.matches 15 = true ∧
    (processRules demo_rule_set.rules 15 ([] : List Int) true).1 = [15] := by
  refine ⟨rfl, by decide, ?_⟩
  have h := process_rules_in_order_until_last demo_rule_set 15 ([] : List Int)
  have h2 := h.2.1 [] demo_rule_last [demo_rule_next] rfl (by decide) rfl
      (by intro r hr; simp at hr)
  rw [h.1, h2]
  rfl

/-- C3: for every rule set and processed value, `process` runs the default
actions exactly when no rule matched the value, all of them in registration
order and each with the value; when some rule matched, the defaults are
skipped and the state is just the rule loop's result. -/
theorem defaults_fire_iff_no_match (R : RuleSet α σ) (x : α) (s : σ) :
    R.process x s =
      opt_hook_after R.after_processing
        (if R.rules.all (fun r => !(r.matches x)) then
           run_defaults R.defaults x (opt_hook_before R.before_processing x s)
         else
           (processRules R.rules x (opt_hook_before R.before_processing x s) true).1) := by
  cases hall : R.rules.all (fun r => !(r.matches x)) with
  | false =>
    have he : (fired_rules R.rules x).isEmpty = false := by
      rw [fired_rules_isEmpty_eq_all]
      exact hall
    cases hb : R.before_processing <;> cases ha : R.after_processing <;>
      simp [RuleSet.process, processRules_eq_fired, he, hall, hb, ha,
        opt_hook_before, opt_hook_after, run_defaults]
  | true =>
    have hnil : fired_rules R.rules x = [] := by
      have he : (fired_rules R.rules x).isEmpty = true := by
        rw [fired_rules_isEmpty_eq_all]
        exact hall
      exact List.isEmpty_iff.mp he
    cases hb : R.before_processing <;> cases ha : R.after_processing <;>
      simp [RuleSet.process, processRules_eq_fired, hnil, hall, hb, ha,
        opt_hook_before, opt_hook_after, run_defaults]

/-- C4: `process_many` is exactly the sequential iteration of `process`
over the input, in order: it does nothing on the empty batch, peels off the
head first, and splits over concatenation, so the combined effect of a
batch is the composition of the individual `process` calls in input
order. -/
theorem process_many_is_sequential (R : RuleSet α σ) (xs ys : List α) (x : α) (s : σ) :
    R.process_many [] s = s
    ∧ R.process_many (x :: xs) s = R.process_many xs (R.process x s)
    ∧ R.process_many (xs ++ ys) s = R.process_many ys (R.process_many xs s) := by
  refine ⟨rfl, rfl, ?_⟩
  simp [RuleSet.process_many, List.foldl_append]

/-- C5: a rule set with no rules, no defaults, and no hooks processes any
value without any observable effect: the state is returned unchanged (and,
being total, the function raises no error). -/
theorem empty_ruleset_process_is_noop (R : RuleSet α σ) (x : α) (s : σ)
    (h1 : R.rules = []) (h2 : R.defaults = [])
    (h3 : R.before_processing = none) (h4 : R.after_processing = none) :
    R.process x s = s := by
  simp [RuleSet.process, h1, h2, h3, h4, processRules]

/-- Witness for C5: the concrete empty rule set leaves the state alone. -/
theorem empty_ruleset_process_is_noop_witness :
    empty_rule_set.rules = [] ∧ empty_rule_set.process 7 ([] : List Int) = [] :=
  ⟨rfl, empty_ruleset_process_is_noop empty_rule_set 7 [] rfl rfl rfl rfl⟩

/-- C6: `process` is the hookless processing of the rules and defaults,
wrapped on the inside by one application of the before hook (receiving the
value, before any rule is consulted) and on the outside by one application
of the after hook (receiving no value, after every rule and default action
has run); this holds whether or not any rule matches. -/
theorem hooks_wrap_processing (R : RuleSet α σ) (x : α) (s : σ) :
    R.process x s =
      opt_hook_after R.after_processing
        ((RuleSet.mk R.rules R.defaults none none).process x
          (opt_hook_before R.before_processing x s)) := by
  obtain ⟨rules, defaults, bp, ap⟩ := R
  cases bp <;> cases ap <;> rfl

/-- C7: every integer value in the list returned by `get_fizz_buzz_values`
is a multiple of neither 3 nor 5: only non-multiples survive in the output
as bare numbers. -/
theorem output_ints_not_multiples :
    ∀ v ∈ get_fizz_buzz_values, ∀ k : Int, v = FBVal.num k → k % 3 ≠ 0 ∧ k % 5 ≠ 0 := by
  have hall : ∀ w ∈ get_fizz_buzz_values,
      (match w with
       | FBVal.num m => decide (m % 3 ≠ 0 ∧ m % 5 ≠ 0)
       | FBVal.str _ => true) = true := by decide
  intro v hv k hk
  subst hk
  have h := hall _ hv
  simpa using h

/-- Witness for C7: the integer 1 occurs in the output and is a multiple of
neither 3 nor 5. -/
theorem output_ints_not_multiples_witness :
    FBVal.num 1 ∈ get_fizz_buzz_values ∧ (1 : Int) % 3 ≠ 0 ∧ (1 : Int) % 5 ≠ 0 :=
  ⟨by decide, output_ints_not_multiples (FBVal.num 1) (by decide) 1 rfl⟩

/-- C8: `add` appends exactly one rule, built from its arguments, to the
end of the rule sequence, and `add_default` appends the action to the end
of the default sequence; neither touches the other sequence, and any
sequence of rule-set operations only ever appends, so rule and default
order is exactly insertion order. -/
theorem add_appends_preserving_order (R : RuleSet α σ) (c : α → Bool)
    (a d : α → σ → σ) (l : Bool) (ops : List (RuleSetOp α σ)) :
    (R.add c a l).rules = R.rules ++ [Rule.mk c a l]
    ∧ (R.add c a l).defaults = R.defaults
    ∧ (R.add_default d).defaults = R.defaults ++ [d]
    ∧ (R.add_default d).rules = R.rules
    ∧ (ops.foldl apply_op R).rules = R.rules ++ ops_new_rules ops
    ∧ (ops.foldl apply_op R).defaults = R.defaults ++ ops_new_defaults ops :=
  ⟨rfl, rfl, rfl, rfl, foldl_apply_op_rules ops R, foldl_apply_op_defaults ops R⟩

/-- C9: `process_many` on an empty input sequence returns the state
unchanged for every rule set, so no hook, condition, action, or default is
ever invoked on an empty batch. -/
theorem process_many_nil_is_noop (R : RuleSet α σ) (s : σ) :
    R.process_many [] s = s :=
  rfl
